import Mathlib

/-!
Verification of the web-webpack-plugin HTML document model.

Shallow embedding of the repository's two source files:
* `HTMLDocument` (scan / reconcile / serialize / clone of a parse5 HTML tree)
  together with the `util` helpers it uses (`replaceNodesWithNodes`,
  `mockScriptNode`, `mockStyleNode`);
* `AutoWebPlugin.apply` (page registration and commons-chunk wiring).

parse5 itself is an external dependency: parsed trees are inputs of the
model.  JavaScript in-place array mutation on a single document is rendered
as functional update; where object/array *identity* is the property under
study (the document cache's clone, and the caller's `requires` array) a small
explicit heap is used instead.  A JavaScript `TypeError` (member access on
`null`) is rendered as `Option.none`.
-/

set_option autoImplicit false

namespace WebPlugin

/-! ## JavaScript string primitives -/

/-- Whitespace as trimmed by `String.prototype.trim` (the characters that
occur in the templates at hand). -/
def isJsWhitespace (c : Char) : Bool :=
  c = ' ' || c = '\t' || c = '\n' || c = '\r'

/-- Model of JavaScript `String.prototype.trim`. -/
def jsTrim (s : String) : String :=
  String.mk (((s.data.dropWhile isJsWhitespace).reverse.dropWhile isJsWhitespace).reverse)

/-- Model of JavaScript `String.prototype.startsWith`. -/
def jsStartsWith (s pre : String) : Bool :=
  pre.data.isPrefixOf s.data

/-- Index of the last `.` in a character list, if any.  -/
def lastDotIdx (cs : List Char) : Option Nat :=
  (cs.foldl (fun (acc : Option Nat × Nat) c =>
    (if c = '.' then some acc.2 else acc.1, acc.2 + 1)) (none, 0)).1

/-- Modelled from the spec: `Resource.js` is not under `src/`; per §4.1 a
resource's `chunkName` is the `src`/`href` attribute value "with its file
extension removed".  The extension is the suffix starting at the last dot;
a dot in first position (a dotfile-style name, as in `path.parse`) is not
an extension start. -/
def stripExt (s : String) : String :=
  match lastDotIdx s.data with
  | none => s
  | some 0 => s
  | some i => String.mk (s.data.take i)

/-! ## JavaScript array primitives (`splice`, `findIndex`) -/

/-- `Array.prototype.splice` start-index normalisation: a negative index
counts from the end and is clamped at 0, a positive one is clamped at the
length. -/
def jsSpliceStart (len : Nat) (idx : Int) : Nat :=
  if idx < 0 then ((len : Int) + idx).toNat else min idx.toNat len

/-- `arr.splice(idx, 1)`: remove one element at the normalised index
(no element is removed when the index normalises to the length). -/
def jsSpliceRemoveOne {α : Type} (l : List α) (idx : Int) : List α :=
  let s := jsSpliceStart l.length idx
  l.take s ++ l.drop (s + 1)

/-- `arr.splice(idx, 0, ...news)`: insert `news` at the normalised index. -/
def jsSpliceInsert {α : Type} (l : List α) (idx : Int) (news : List α) : List α :=
  let s := jsSpliceStart l.length idx
  l.take s ++ news ++ l.drop s

/-- `Array.prototype.findIndex` as an optional index. -/
def jsFindIdx {α : Type} (p : α → Bool) : List α → Option Nat
  | [] => none
  | a :: l => if p a then some 0 else (jsFindIdx p l).map (· + 1)

/-- `requires.findIndex(one => one === chunkName)` followed by
`splice(index, 1)` when found: removal of the first occurrence, rendered
structurally. -/
def removeFirstOcc : List String → String → List String
  | [], _ => []
  | x :: xs, c => if x = c then xs else x :: removeFirstOcc xs c

end WebPlugin

namespace WebPlugin

/-! ## parse5 node model

A parse5 node carries `nodeName` (= `tagName` for elements, `#text`,
`#comment`), attributes, comment data or text value, and `childNodes`.
`parentNode` back-pointers are not represented (they would make the tree
cyclic); the operation that needs them, marker replacement, is modelled by
tracking in which anchor list (head or body) the marker was found.
Reference equality of nodes (`findIndex(n => n === old)`) is modelled by a
numeric `id` given to every parsed node; nodes fabricated by
`mockScriptNode`/`mockStyleNode` are fresh objects and carry id 0. -/

inductive PNode : Type where
  | element (id : Nat) (tagName : String) (attrs : List (String × String))
      (children : List PNode)
  | text (id : Nat) (value : String)
  | comment (id : Nat) (data : String)

/-- The identity tag of a node (stands for JavaScript object identity). -/
def PNode.id : PNode → Nat
  | .element i _ _ _ => i
  | .text i _ => i
  | .comment i _ => i

/-- The tag name of an element node. -/
def PNode.tagOf : PNode → Option String
  | .element _ t _ _ => some t
  | _ => none

/-- Is this an element node? -/
def PNode.isElem : PNode → Bool
  | .element _ _ _ _ => true
  | _ => false

/-- Attribute lookup in a parse5 `attrs` list. -/
def getAttr (attrs : List (String × String)) (nm : String) : Option String :=
  (attrs.find? (fun a => a.1 = nm)).map (fun a => a.2)

/-- `util.mockScriptNode({src})`: a fresh `<script src=...>` node. -/
def mockScriptNode (src : String) : PNode :=
  .element 0 "script" [("src", src)] []

/-- `util.mockStyleNode({href})`: a fresh `<link rel=stylesheet href=...>`
node. -/
def mockStyleNode (href : String) : PNode :=
  .element 0 "link" [("rel", "stylesheet"), ("href", href)] []

/-- `util.replaceNodesWithNodes(oldNodes, newNodes)` acting on the parent's
`childNodes` list: for each old node take `findIndex` (reference equality,
modelled by id) and `splice(index, 1)`, then `splice(index, 0, ...newNodes)`
with the index left by the loop (initially 0). -/
def replaceNodesWithNodes (oldIds : List Nat) (newNodes : List PNode)
    (childNodes : List PNode) : List PNode :=
  let r := oldIds.foldl
    (fun (acc : Int × List PNode) oldId =>
      let idx : Int := match jsFindIdx (fun n => n.id == oldId) acc.2 with
        | some i => Int.ofNat i
        | none => -1
      (idx, jsSpliceRemoveOne acc.2 idx))
    (0, childNodes)
  jsSpliceInsert r.2 r.1 newNodes

end WebPlugin

namespace WebPlugin

/-! ## Resource model

Modelled from the spec: `Resource.js` is code of this repository that is
not under `src/` (only its callers in `HTMLDocument` are).  Per spec §4.1,
given a tree node it is classified as
* `script` when the node name is `script`, with `chunkName` = the `src`
  attribute value with its extension removed (none for an inline script);
* `style` when the node is `link[rel=stylesheet]` (with `chunkName` from
  `href`, extension stripped) or a `style` element (inline, no chunk name);
* `comment` for `#comment` nodes, with `data` = the trimmed comment text;
* `other` for everything else.
The wrapper keeps a back-reference to the wrapped node (`nodeId`). -/

inductive RType : Type where
  | script
  | style
  | comment
  | other
deriving DecidableEq

structure Resource where
  rtype : RType
  chunkName : Option String
  data : String
  nodeId : Nat

/-- Modelled from the spec: `new Resource(node, templatePath)`
classification (spec §4.1), node-name tests rendered as the source's
`if (nodeName === ...)` chain. -/
def classify (n : PNode) : Resource :=
  match n with
  | .element i t attrs _ =>
      if t = "script" then ⟨.script, (getAttr attrs "src").map stripExt, "", i⟩
      else if t = "link" then
        (if attrs.any (fun a => a.1 = "rel" && a.2 = "stylesheet") then
          ⟨.style, (getAttr attrs "href").map stripExt, "", i⟩
        else ⟨.other, none, "", i⟩)
      else if t = "style" then ⟨.style, none, "", i⟩
      else ⟨.other, none, "", i⟩
  | .comment i dt => ⟨.comment, none, jsTrim dt, i⟩
  | .text i _ => ⟨.other, none, "", i⟩

/-! ## HTMLDocument model -/

/-- Which anchor node a marker comment was found under (stands for the
marker node's `parentNode`, which is always the head or the body node when
the marker was recorded by a scan). -/
inductive Side : Type where
  | head
  | body
deriving DecidableEq

/-- The scan/reconcile state of `HTMLDocument`: the head and body anchors
(`none` = the anchor node is `null`; `some cs` = the anchor's live
`childNodes` list), the accumulated resource lists, and the recorded
injection-marker comments (side of the parent plus node id). -/
structure HTMLDocument : Type where
  headChildren : Option (List PNode)
  bodyChildren : Option (List PNode)
  scriptResources : List Resource
  stylesResources : List Resource
  scriptInject : Option (Side × Nat)
  styleInject : Option (Side × Nat)

/-- The freshly constructed state (all fields as initialised in the
constructor before `_findOutAll`). -/
def emptyDoc : HTMLDocument :=
  ⟨none, none, [], [], none, none⟩

/-- One step of `_findScriptStyleTagComment`'s `forEach`: classify the child
and accumulate it. -/
def scanOne (side : Side) (st : HTMLDocument) (n : PNode) : HTMLDocument :=
  let r := classify n
  match r.rtype with
  | .script => { st with scriptResources := st.scriptResources ++ [r] }
  | .style => { st with stylesResources := st.stylesResources ++ [r] }
  | .comment =>
      if r.data = "SCRIPT" then { st with scriptInject := some (side, r.nodeId) }
      else if r.data = "STYLE" then { st with styleInject := some (side, r.nodeId) }
      else st
  | .other => st

/-- `_findScriptStyleTagComment(node)`: scan `node.childNodes` in order. -/
def findScriptStyleTagComment (side : Side) (ns : List PNode) (st : HTMLDocument) :
    HTMLDocument :=
  ns.foldl (scanOne side) st

/-- One step of `_findOutAll`'s inner `forEach` over the html element's
children: on `head`, set `this.headNode` and scan its children; on `body`
likewise. -/
def findOutInnerStep (s : HTMLDocument) (k : PNode) : HTMLDocument :=
  match k with
  | .element _ t _ kc =>
      if t = "head" then
        findScriptStyleTagComment Side.head kc { s with headChildren := some kc }
      else if t = "body" then
        findScriptStyleTagComment Side.body kc { s with bodyChildren := some kc }
      else s
  | _ => s

/-- One step of `_findOutAll`'s outer `forEach` over `document.childNodes`:
descend into an `html` element. -/
def findOutAllStep (st : HTMLDocument) (n : PNode) : HTMLDocument :=
  match n with
  | .element _ t _ kids =>
      if t = "html" then kids.foldl findOutInnerStep st else st
  | _ => st

/-- `_findOutAll()` run on the parsed `document.childNodes`. -/
def findOutAll (docChildren : List PNode) : HTMLDocument :=
  docChildren.foldl findOutAllStep emptyDoc

/-- The `forEach` over scanned resources at the top of
`_ensureRequireScripts` / `_ensureRequireStyles`: for each resource with a
chunk name, remove the first occurrence of that name from the working
required list. -/
def dropPresent (resources : List Resource) (requires : List String) : List String :=
  resources.foldl (fun acc r =>
    match r.chunkName with
    | some c => removeFirstOcc acc c
    | none => acc) requires

/-- Read the child list of an anchor side. -/
def getSideChildren (d : HTMLDocument) : Side → Option (List PNode)
  | .head => d.headChildren
  | .body => d.bodyChildren

/-- Replace the child list of an anchor side. -/
def setSideChildren (d : HTMLDocument) : Side → List PNode → HTMLDocument
  | .head, cs => { d with headChildren := some cs }
  | .body, cs => { d with bodyChildren := some cs }

/-- The `leftScriptNodes` built by `_ensureRequireScripts`: one mock script
node per still-required chunk name. -/
def leftScriptNodesOf (d : HTMLDocument) (R : List String) : List PNode :=
  (dropPresent d.scriptResources R).map mockScriptNode

/-- The `leftStyleNodes` built by `_ensureRequireStyles`. -/
def leftStyleNodesOf (d : HTMLDocument) (R : List String) : List PNode :=
  (dropPresent d.stylesResources R).map mockStyleNode

/-- `_ensureRequireScripts(requiresScripts)`: drop already-present chunk
names, then, when leftovers remain, replace the `<!--SCRIPT-->` marker with
one mock script node per leftover, or append them to the body's children
when no marker was recorded.  `none` models the `TypeError` thrown when the
needed anchor is `null`.  Returns the updated document and
`leftScriptNodes`. -/
def ensureRequireScripts (d : HTMLDocument) (requiresScripts : List String) :
    Option (HTMLDocument × List PNode) :=
  if (dropPresent d.scriptResources requiresScripts).isEmpty then some (d, [])
  else
    match d.scriptInject with
    | some (side, mid) =>
        match getSideChildren d side with
        | some cs =>
            some (setSideChildren d side
                (replaceNodesWithNodes [mid] (leftScriptNodesOf d requiresScripts) cs),
              leftScriptNodesOf d requiresScripts)
        | none => none
    | none =>
        match d.bodyChildren with
        | some bs =>
            some ({ d with bodyChildren := some (bs ++ leftScriptNodesOf d requiresScripts) },
              leftScriptNodesOf d requiresScripts)
        | none => none

/-- `_ensureRequireStyles(requiresStyles)`: the same algorithm against style
resources and the `<!--STYLE-->` marker, producing `link rel=stylesheet`
nodes, appended to the head's children when no marker was recorded. -/
def ensureRequireStyles (d : HTMLDocument) (requiresStyles : List String) :
    Option (HTMLDocument × List PNode) :=
  if (dropPresent d.stylesResources requiresStyles).isEmpty then some (d, [])
  else
    match d.styleInject with
    | some (side, mid) =>
        match getSideChildren d side with
        | some cs =>
            some (setSideChildren d side
                (replaceNodesWithNodes [mid] (leftStyleNodesOf d requiresStyles) cs),
              leftStyleNodesOf d requiresStyles)
        | none => none
    | none =>
        match d.headChildren with
        | some hs =>
            some ({ d with headChildren := some (hs ++ leftStyleNodesOf d requiresStyles) },
              leftStyleNodesOf d requiresStyles)
        | none => none

/-- `ensureRequires(requires)`: the scripts pass, then (only when the
externally supplied `_isExtractStyle` flag is set) the styles pass, each on
a copy of the caller's list (`[...requires]`; copies are value-equal in the
pure model — the aliasing aspect is treated separately on an explicit
heap), then re-scan the injected nodes (`{childNodes: lefts}`) to merge
them into the resource lists.  The fake wrapper object has no side; the
injected nodes are never comments, so the side passed to the scan is
irrelevant and `Side.body` stands in. -/
def ensureRequires (d : HTMLDocument) (requires : List String)
    (isExtractStyle : Bool) : Option HTMLDocument :=
  match ensureRequireScripts d requires with
  | none => none
  | some (d1, ls) =>
      match (if isExtractStyle then ensureRequireStyles d1 requires
             else some (d1, [])) with
      | none => none
      | some (d2, lst) =>
          some (findScriptStyleTagComment Side.body (ls ++ lst) d2)

/-- The `mini` closure of `serialize()` in production mode, acting on one
`childNodes` list: drop every comment whose data does not start with
`[if `, trim every text value and drop it when it trims to empty.  The
source iterates backwards splicing in place; each index is handled
independently, rendered here as structural recursion. -/
def miniList : List PNode → List PNode
  | [] => []
  | n :: rest =>
      let rest' := miniList rest
      match n with
      | .comment i dt => if jsStartsWith dt "[if " then .comment i dt :: rest' else rest'
      | .text i v => let t := jsTrim v; if t = "" then rest' else .text i t :: rest'
      | e => e :: rest'

/-- The tree preprocessing of `serialize()` with `_isProduction` set: apply
`mini` to `this.headNode.childNodes` and `this.bodyNode.childNodes` before
handing the tree to `parse5.serialize` (external, not modelled).  A `null`
anchor makes the member access throw (`none`).  The pretty branch is not
modelled (no claim concerns it). -/
def serializeMiniPrep (d : HTMLDocument) : Option HTMLDocument :=
  match d.headChildren, d.bodyChildren with
  | some hs, some bs =>
      some { d with headChildren := some (miniList hs), bodyChildren := some (miniList bs) }
  | _, _ => none

/-! ## Observation helpers -/

/-- The `src` attribute of a script element node. -/
def nodeScriptSrc : PNode → Option String
  | .element _ "script" attrs _ => getAttr attrs "src"
  | _ => none

/-- The `href` of a `link rel=stylesheet` element node. -/
def nodeLinkHref : PNode → Option String
  | .element _ "link" attrs _ =>
      if attrs.any (fun a => a.1 = "rel" && a.2 = "stylesheet") then getAttr attrs "href"
      else none
  | _ => none

/-- `src` values of script tags among the head and body children. -/
def treeScriptSrcs (d : HTMLDocument) : List String :=
  (d.headChildren.getD [] ++ d.bodyChildren.getD []).filterMap nodeScriptSrc

/-- `href` values of stylesheet link tags among the head and body
children. -/
def treeLinkHrefs (d : HTMLDocument) : List String :=
  (d.headChildren.getD [] ++ d.bodyChildren.getD []).filterMap nodeLinkHref

/-- Script chunk names visible in a document: chunk names of its scanned
script resources together with raw `src` values of script tags in the
tree. -/
def presentScriptNames (d : HTMLDocument) : List String :=
  d.scriptResources.filterMap (fun r => r.chunkName) ++ treeScriptSrcs d

/-- The node id of an injection-marker comment with the given reserved
payload. -/
def markerIdOf (payload : String) : PNode → Option Nat
  | .comment i dt => if jsTrim dt = payload then some i else none
  | _ => none

/-- Node ids of injection-marker comments with the given reserved payload
among a child list, in scan order. -/
def markersOf (payload : String) (ns : List PNode) : List Nat :=
  ns.filterMap (markerIdOf payload)

/-- What the compact (`mini`) pass guarantees for one child list: every
surviving comment is a conditional comment that was already present; every
surviving text node is the non-empty trim of a text node that was present;
element nodes are kept untouched, in order. -/
def miniSound (orig res : List PNode) : Prop :=
  (∀ i dt, PNode.comment i dt ∈ res →
    jsStartsWith dt "[if " = true ∧ PNode.comment i dt ∈ orig)
  ∧ (∀ i v, PNode.text i v ∈ res →
    v ≠ "" ∧ ∃ v0, PNode.text i v0 ∈ orig ∧ v = jsTrim v0)
  ∧ res.filter PNode.isElem = orig.filter PNode.isElem

end WebPlugin

namespace WebPlugin

/-! ## Identity-aware model of `clone()` and the document cache

`clone()` reads
```
const ret = Object.assign({}, this);   // shallow: ret.headNode === this.headNode
ret.__proto__ = this.__proto__;
ret.headNode.childNodes = [...this.headNode.childNodes];
ret.bodyNode.childNodes = [...this.bodyNode.childNodes];
...
```
Whether the copied child lists are *independent* is a question about object
identity, so head/body node objects and childNodes arrays live in an
explicit heap: `arrs` is the array heap (an array object's contents),
`nodeChild` is the node heap (a node object's current `childNodes` array
reference).  A document record holds references to its head and body node
objects.  The resource wrappers, which `clone()` deep-clones, are pure
values and are omitted from this identity model. -/

structure DomState : Type where
  arrs : List (List PNode)
  nodeChild : List Nat

/-- Contents of the array object at reference `r`. -/
def dGetArr (σ : DomState) (r : Nat) : List PNode :=
  (σ.arrs.get? r).getD []

/-- Overwrite the array object at reference `r`. -/
def dSetArr (σ : DomState) (r : Nat) (v : List PNode) : DomState :=
  { σ with arrs := σ.arrs.set r v }

/-- Allocate a fresh array object (`[...xs]`). -/
def dAllocArr (σ : DomState) (v : List PNode) : DomState × Nat :=
  ({ σ with arrs := σ.arrs ++ [v] }, σ.arrs.length)

/-- The `childNodes` array reference of the node object at `n`. -/
def dGetChild (σ : DomState) (n : Nat) : Nat :=
  (σ.nodeChild.get? n).getD 0

/-- Re-point the `childNodes` field of the node object at `n`
(`node.childNodes = ...`). -/
def dSetChild (σ : DomState) (n : Nat) (r : Nat) : DomState :=
  { σ with nodeChild := σ.nodeChild.set n r }

/-- A constructed `HTMLDocument`'s anchor references (`this.headNode`,
`this.bodyNode`). -/
structure DocObj : Type where
  headRef : Nat
  bodyRef : Nat

/-- First construction for a template path: parse and `_findOutAll` produce
fresh head and body node objects, each owning a fresh `childNodes` array. -/
def parseDoc (σ : DomState) (headCs bodyCs : List PNode) : DomState × DocObj :=
  let ha := dAllocArr σ headCs
  let ba := dAllocArr ha.1 bodyCs
  let σ3 : DomState := { ba.1 with nodeChild := ba.1.nodeChild ++ [ha.2, ba.2] }
  (σ3, ⟨ba.1.nodeChild.length, ba.1.nodeChild.length + 1⟩)

/-- `clone()`: the shallow `Object.assign` makes the clone reference the
*same* head and body node objects; the two array-copy assignments then
re-point those shared nodes' `childNodes` at fresh copies. -/
def cloneDoc (σ : DomState) (d : DocObj) : DomState × DocObj :=
  let ha := dAllocArr σ (dGetArr σ (dGetChild σ d.headRef))
  let σ2 := dSetChild ha.1 d.headRef ha.2
  let ba := dAllocArr σ2 (dGetArr σ2 (dGetChild σ2 d.bodyRef))
  let σ4 := dSetChild ba.1 d.bodyRef ba.2
  (σ4, ⟨d.headRef, d.bodyRef⟩)

/-- The body child list a document currently sees. -/
def bodyChildrenOf (σ : DomState) (d : DocObj) : List PNode :=
  dGetArr σ (dGetChild σ d.bodyRef)

/-- `this.bodyNode.childNodes.push(node)` — the injection step of
`_ensureRequireScripts` without a marker. -/
def pushBodyChild (σ : DomState) (d : DocObj) (n : PNode) : DomState :=
  dSetArr σ (dGetChild σ d.bodyRef) (bodyChildrenOf σ d ++ [n])

/-- The constructor run twice for the same template path (body holding the
default `<!--SCRIPT-->` marker): the first call parses, stores
`this.clone()` in the cache and returns `this`; the second hits the cache
and returns `cachedPrototype.clone()`. -/
def c1Parse : DomState × DocObj :=
  parseDoc ⟨[], []⟩ [.element 10 "meta" [("charset", "UTF-8")] []] [.comment 11 "SCRIPT"]

/-- The document returned by the first construction. -/
def c1Doc1 : DocObj := c1Parse.2

/-- `HTMLDocumentCacheMap[path] = this.clone()`. -/
def c1Cache : DomState × DocObj := cloneDoc c1Parse.1 c1Parse.2

/-- Second construction: `return HTMLDocumentCacheMap[path].clone()`. -/
def c1Second : DomState × DocObj := cloneDoc c1Cache.1 c1Cache.2

/-- Reconciling the second document injects a script into its body children
(the no-marker fallback path, as one concrete mutation). -/
def c1AfterInject : DomState :=
  pushBodyChild c1Second.1 c1Second.2 (mockScriptNode "app")

end WebPlugin

namespace WebPlugin

/-! ## Identity-aware model of `ensureRequires`'s treatment of the
caller's `requires` array

`ensureRequires` passes `[...requires]` — a fresh copy — to each internal
pass, and each pass destructively `splice`s already-present names out of
the array it was handed.  The array contents live in a string-array heap so
that "which array object got mutated" is expressible. -/

structure StrHeap : Type where
  arrs : List (List String)

/-- Contents of the array object at reference `r` in the string heap. -/
def hGet (h : StrHeap) (r : Nat) : List String :=
  (h.arrs.get? r).getD []

/-- Overwrite the array object at reference `r`. -/
def hSet (h : StrHeap) (r : Nat) (v : List String) : StrHeap :=
  ⟨h.arrs.set r v⟩

/-- Allocate a fresh array object (`[...requires]`). -/
def hAlloc (h : StrHeap) (v : List String) : StrHeap × Nat :=
  (⟨h.arrs ++ [v]⟩, h.arrs.length)

/-- The array effect of `_ensureRequireScripts` on the list it was handed:
the `forEach`/`splice` loop removes every already-present chunk name in
place. -/
def ensureRequireScriptsArr (d : HTMLDocument) (h : StrHeap) (r : Nat) : StrHeap :=
  hSet h r (dropPresent d.scriptResources (hGet h r))

/-- The array effect of `_ensureRequireStyles`, same loop over the style
resources. -/
def ensureRequireStylesArr (d : HTMLDocument) (h : StrHeap) (r : Nat) : StrHeap :=
  hSet h r (dropPresent d.stylesResources (hGet h r))

/-- The array effects of `ensureRequires(requires)`: each pass receives a
freshly allocated copy `[...requires]` of the caller's array and mutates
that copy. -/
def ensureRequiresArr (d : HTMLDocument) (h : StrHeap) (requiresRef : Nat)
    (isExtractStyle : Bool) : StrHeap :=
  let a1 := hAlloc h (hGet h requiresRef)
  let h2 := ensureRequireScriptsArr d a1.1 a1.2
  if isExtractStyle then
    let a2 := hAlloc h2 (hGet h2 requiresRef)
    ensureRequireStylesArr d a2.1 a2.2
  else h2

end WebPlugin

namespace WebPlugin

/-! ## `AutoWebPlugin.apply` model

`apply(compiler)` iterates the entry map: for every page it registers the
webpack entry `[...preEntrys, entryPath, ...postEntrys]` and one `WebPlugin`
with `filename = entryName + ".html"` and
`requires = useCommonsChunk ? [commonsChunk.name, entryName] : [entryName]`,
where
`useCommonsChunk = commonsChunk != null || typeof commonsChunk === 'object'`.
Afterwards, when `useCommonsChunk`, it registers one `CommonsChunkPlugin`
whose options are `Object.assign({chunks: allPageNames}, commonsChunk)`. -/

/-- A JavaScript configuration slot: absent (`undefined`), explicit `null`,
or an object. -/
inductive JsVal (α : Type) : Type where
  | undef
  | jsnull
  | val (a : α)

/-- The `options.commonsChunk` object: its `name`, and its optional own
`chunks` property (which `Object.assign` would lay over the computed page
set). -/
structure CommonsChunkCfg : Type where
  name : String
  chunksOverride : Option (List String)

/-- One page of `this.entryMap` (template, entry path, constructor-computed
filename). -/
structure EntryInfo : Type where
  template : Option String
  entryPath : String
  filename : String

/-- One registered `WebPlugin` together with its webpack entry. -/
structure PageReg : Type where
  entryName : String
  entryArray : List String
  template : Option String
  outFile : String
  requires : List String

/-- The registered `CommonsChunkPlugin` options: `name` (absent when
`commonsChunk` had none to assign) and the `chunks` set. -/
structure CommonsPassReg : Type where
  passName : Option String
  chunks : List String

/-- Everything `apply` registers with the compiler. -/
structure ApplyResult : Type where
  pages : List PageReg
  commonsPass : Option CommonsPassReg

/-- `commonsChunk != null || typeof commonsChunk === 'object'`: loose
`!= null` is false for both `null` and `undefined`, but
`typeof null === 'object'` is true, so only `undefined` yields false. -/
def useCommonsChunkOf {α : Type} : JsVal α → Bool
  | .undef => false
  | .jsnull => true
  | .val _ => true

/-- `useCommonsChunk ? [commonsChunk.name, entryName] : [entryName]`;
reading `.name` of `null` throws (`none`). -/
def pageRequires (cc : JsVal CommonsChunkCfg) (ucc : Bool) (nm : String) :
    Option (List String) :=
  if ucc then
    match cc with
    | .val c => some [c.name, nm]
    | _ => none
  else some [nm]

/-- The per-page `forEach` of `apply`. -/
def buildPages (cc : JsVal CommonsChunkCfg) (ucc : Bool)
    (pre post : Option (List String)) :
    List (String × EntryInfo) → Option (List PageReg)
  | [] => some []
  | (nm, info) :: rest =>
      match pageRequires cc ucc nm with
      | none => none
      | some reqs =>
          match buildPages cc ucc pre post rest with
          | none => none
          | some ps =>
              some ({ entryName := nm,
                      entryArray := (pre.getD []) ++ [info.entryPath] ++ (post.getD []),
                      template := info.template,
                      outFile := nm ++ ".html",
                      requires := reqs } :: ps)

/-- `AutoWebPlugin.apply`: register every page, then, when
`useCommonsChunk`, register the commons-chunk pass with
`Object.assign({chunks: Object.keys(entryMap)}, commonsChunk)`
(`Object.assign` with a `null` source copies nothing). -/
def applyAuto (entryMap : List (String × EntryInfo)) (cc : JsVal CommonsChunkCfg)
    (pre post : Option (List String)) : Option ApplyResult :=
  let ucc := useCommonsChunkOf cc
  match buildPages cc ucc pre post entryMap with
  | none => none
  | some ps =>
      some { pages := ps,
             commonsPass :=
               if ucc then
                 some (match cc with
                   | .val c => { passName := some c.name,
                                 chunks := c.chunksOverride.getD (entryMap.map (fun e => e.1)) }
                   | _ => { passName := none, chunks := entryMap.map (fun e => e.1) })
               else none }

end WebPlugin

namespace WebPlugin

/-- All nodes of a document's two anchor child lists. -/
def anchorChildren (d : HTMLDocument) : List PNode :=
  d.headChildren.getD [] ++ d.bodyChildren.getD []

/-! ## Concrete test documents -/

/-- A template tree: `<html><head/><body><!--SCRIPT-->end</body></html>`. -/
def exHtml : PNode :=
  .element 1 "html" [] [.element 2 "head" [] [],
    .element 3 "body" [] [.comment 4 "SCRIPT", .text 5 "end"]]

/-- The scanned document of `exHtml`. -/
def exDoc : HTMLDocument := findOutAll [exHtml]

/-- `exDoc` after one reconciliation with `["app"]` (styles flag off). -/
def exDocOnce : HTMLDocument := (ensureRequires exDoc ["app"] false).getD emptyDoc

/-- One reconciliation of `exDoc` with the dotted chunk name `a.b`. -/
def exOnceAB : Option HTMLDocument := ensureRequires exDoc ["a.b"] false

/-- A second reconciliation with the same list on top of `exOnceAB`. -/
def exTwiceAB : Option HTMLDocument :=
  exOnceAB.bind (fun d => ensureRequires d ["a.b"] false)

/-- A scanned document with empty head and body and no markers. -/
def exPlain : HTMLDocument :=
  findOutAll [.element 1 "html" [] [.element 2 "head" [] [], .element 3 "body" [] []]]

/-- `exPlain` reconciled with `["app"]`, styles flag off. -/
def c7dF : HTMLDocument := (ensureRequires exPlain ["app"] false).getD emptyDoc

/-- `exPlain` reconciled with `["app"]`, styles flag on. -/
def c7dT : HTMLDocument := (ensureRequires exPlain ["app"] true).getD emptyDoc

/-- The scripts pass of `exPlain` with `["app"]`. -/
def c3res : HTMLDocument × List PNode :=
  (ensureRequireScripts exPlain ["app"]).getD (emptyDoc, [])

/-- A document whose body child is a `div` containing a non-conditional
comment (nested one level below the body's immediate children). -/
def exNested : HTMLDocument :=
  findOutAll [.element 1 "html" [] [.element 2 "head" [] [],
    .element 3 "body" [] [.element 6 "div" [] [.comment 7 "keep me"]]]]

/-- A document with blank text, a plain comment, padded text and an element
among the body's immediate children. -/
def exMessy : HTMLDocument :=
  findOutAll [.element 1 "html" [] [.element 2 "head" [] [],
    .element 3 "body" [] [.text 6 "  ", .comment 7 "x", .text 8 " hi ",
      .element 9 "p" [] []]]]

/-- `exMessy` after the compact serialization preprocessing. -/
def c5res : HTMLDocument := (serializeMiniPrep exMessy).getD emptyDoc

/-- A scanned document with one template script `<script src="a.js">`
(chunk name `a`). -/
def exResDoc : HTMLDocument :=
  findOutAll [.element 1 "html" [] [.element 2 "head" [] [],
    .element 3 "body" [] [.element 6 "script" [("src", "a.js")] []]]]

/-- One discovered page for the orchestrator model. -/
def c8Entry : EntryInfo := ⟨none, "pages/home/", "home"⟩

/-! ## Lemmas: required-list filtering -/

theorem removeFirstOcc_sublist (l : List String) (c : String) :
    List.Sublist (removeFirstOcc l c) l := by
  induction l with
  | nil => simp [removeFirstOcc]
  | cons x xs ih =>
      by_cases h : x = c
      · simp [removeFirstOcc, h, List.sublist_cons_self]
      · simpa [removeFirstOcc, h] using List.Sublist.cons₂ x ih

theorem mem_removeFirstOcc_of_ne {l : List String} {c r : String}
    (hm : r ∈ l) (hne : r ≠ c) : r ∈ removeFirstOcc l c := by
  induction l with
  | nil => simpa [removeFirstOcc] using hm
  | cons x xs ih =>
      by_cases h : x = c
      · subst h
        rcases List.mem_cons.mp hm with h1 | h1
        · exact absurd h1 hne
        · simpa [removeFirstOcc] using h1
      · rcases List.mem_cons.mp hm with h1 | h1
        · simp [removeFirstOcc, h, h1]
        · simp [removeFirstOcc, h, ih h1]

theorem removeFirstOcc_cons_self (c : String) (l : List String) :
    removeFirstOcc (c :: l) c = l := by
  simp [removeFirstOcc]

theorem dropPresent_sublist (res : List Resource) (R : List String) :
    List.Sublist (dropPresent res R) R := by
  induction res generalizing R with
  | nil => simp [dropPresent]
  | cons a res ih =>
      cases h : a.chunkName with
      | none => simpa [dropPresent, List.foldl_cons, h] using ih R
      | some c =>
          have h1 := ih (removeFirstOcc R c)
          have h2 := removeFirstOcc_sublist R c
          simpa [dropPresent, List.foldl_cons, h] using h1.trans h2

theorem dropPresent_append (res1 res2 : List Resource) (R : List String) :
    dropPresent (res1 ++ res2) R = dropPresent res2 (dropPresent res1 R) := by
  simp [dropPresent, List.foldl_append]

theorem mem_dropPresent_or_names {R : List String} {r : String}
    (res : List Resource) (hm : r ∈ R) :
    r ∈ dropPresent res R ∨ r ∈ res.filterMap (fun a => a.chunkName) := by
  induction res generalizing R with
  | nil => exact Or.inl (by simpa [dropPresent] using hm)
  | cons a res ih =>
      cases h : a.chunkName with
      | none =>
          rcases ih hm with h1 | h1
          · exact Or.inl (by simpa [dropPresent, List.foldl_cons, h] using h1)
          · exact Or.inr (by simp [List.filterMap_cons, h, h1])
      | some c =>
          by_cases hrc : r = c
          · exact Or.inr (by simp [List.filterMap_cons, h, hrc])
          · rcases ih (mem_removeFirstOcc_of_ne hm hrc) with h1 | h1
            · exact Or.inl (by simpa [dropPresent, List.foldl_cons, h] using h1)
            · exact Or.inr (by simp [List.filterMap_cons, h, h1])

theorem foldl_removeFirstOcc_self (l : List String) :
    List.foldl removeFirstOcc l l = [] := by
  induction l with
  | nil => rfl
  | cons x xs ih => simpa [List.foldl_cons, removeFirstOcc_cons_self] using ih

/-! ## Lemmas: `findIndex` and `splice` -/

theorem jsFindIdx_lt_length {α : Type} {p : α → Bool} {l : List α} {i : Nat}
    (h : jsFindIdx p l = some i) : i < l.length := by
  induction l generalizing i with
  | nil => simp [jsFindIdx] at h
  | cons a l ih =>
      by_cases hp : p a
      · simp [jsFindIdx, hp] at h
        simp [List.length_cons]
        omega
      · simp [jsFindIdx, hp] at h
        rcases h with ⟨j, hj, rfl⟩
        simpa [List.length_cons, Nat.succ_lt_succ_iff] using ih hj

theorem jsFindIdx_decomp {α : Type} {p : α → Bool} {l : List α} {i : Nat}
    (h : jsFindIdx p l = some i) :
    ∃ x, l = l.take i ++ x :: l.drop (i + 1) ∧ p x = true ∧
      ∀ y ∈ l.take i, p y = false := by
  induction l generalizing i with
  | nil => simp [jsFindIdx] at h
  | cons a l ih =>
      by_cases hp : p a
      · simp [jsFindIdx, hp] at h
        subst h
        exact ⟨a, by simp, hp, by simp⟩
      · simp [jsFindIdx, hp] at h
        rcases h with ⟨j, hj, rfl⟩
        rcases ih hj with ⟨x, hdec, hx, hpre⟩
        refine ⟨x, ?_, hx, ?_⟩
        · simpa [List.take_succ_cons, List.drop_succ_cons] using congrArg (a :: ·) hdec
        · intro y hy
          rcases List.mem_cons.mp (by simpa [List.take_succ_cons] using hy) with rfl | hy'
          · simpa using hp
          · exact hpre y hy'

theorem jsSpliceStart_natCast (len i : Nat) (h : i ≤ len) :
    jsSpliceStart len (i : Int) = i := by
  have hneg : ¬ ((i : Int) < 0) := by omega
  simp [jsSpliceStart, hneg, Int.toNat_natCast, Nat.min_eq_left h]

theorem replaceNodesWithNodes_single {cs : List PNode} {mid i : Nat}
    (news : List PNode)
    (h : jsFindIdx (fun n => n.id == mid) cs = some i) :
    replaceNodesWithNodes [mid] news cs = cs.take i ++ news ++ cs.drop (i + 1) := by
  have hlt : i < cs.length := jsFindIdx_lt_length h
  have hlentake : (cs.take i).length = i := by
    simp [List.length_take]
    omega
  have hremove : jsSpliceRemoveOne cs (i : Int) = cs.take i ++ cs.drop (i + 1) := by
    simp only [jsSpliceRemoveOne]
    rw [jsSpliceStart_natCast cs.length i hlt.le]
  have hstart2 : jsSpliceStart (cs.take i ++ cs.drop (i + 1)).length (i : Int) = i := by
    have hlenrem : (cs.take i ++ cs.drop (i + 1)).length = cs.length - 1 := by
      simp [List.length_append, hlentake, List.length_drop]
      omega
    rw [hlenrem]
    exact jsSpliceStart_natCast _ _ (by omega)
  have hinsert : jsSpliceInsert (cs.take i ++ cs.drop (i + 1)) (i : Int) news
      = cs.take i ++ news ++ cs.drop (i + 1) := by
    simp only [jsSpliceInsert, hstart2]
    rw [List.take_left' hlentake, List.drop_left' hlentake]
  simp only [replaceNodesWithNodes, List.foldl_cons, List.foldl_nil, h,
    Int.ofNat_eq_natCast]
  rw [hremove, hinsert]

theorem mem_jsSpliceRemoveOne {α : Type} {l : List α} {idx : Int} {x : α}
    (h : x ∈ jsSpliceRemoveOne l idx) : x ∈ l := by
  rcases List.mem_append.mp h with h1 | h1
  · exact List.take_subset _ _ h1
  · exact List.drop_subset _ _ h1

theorem mem_jsSpliceInsert {α : Type} {l news : List α} {idx : Int} {x : α}
    (h : x ∈ jsSpliceInsert l idx news) : x ∈ l ∨ x ∈ news := by
  rcases List.mem_append.mp h with h1 | h1
  · rcases List.mem_append.mp h1 with h2 | h2
    · exact Or.inl (List.take_subset _ _ h2)
    · exact Or.inr h2
  · exact Or.inl (List.drop_subset _ _ h1)

theorem jsSpliceInsert_mem_news {α : Type} (l news : List α) (idx : Int) {x : α}
    (h : x ∈ news) : x ∈ jsSpliceInsert l idx news := by
  simp [jsSpliceInsert, h]

theorem mem_replaceNodesWithNodes {oldIds : List Nat} {news cs : List PNode} {x : PNode}
    (h : x ∈ replaceNodesWithNodes oldIds news cs) :
    x ∈ cs ∨ x ∈ news := by
  have hfold : ∀ (os : List Nat) (acc : Int × List PNode), acc.2 ⊆ cs →
      (os.foldl (fun (acc : Int × List PNode) oldId =>
        let idx : Int := match jsFindIdx (fun n => n.id == oldId) acc.2 with
          | some i => Int.ofNat i
          | none => -1
        (idx, jsSpliceRemoveOne acc.2 idx)) acc).2 ⊆ cs := by
    intro os
    induction os with
    | nil => intro acc hacc; simpa [List.foldl_nil] using hacc
    | cons o os ih =>
        intro acc hacc
        simp only [List.foldl_cons]
        exact ih _ (fun z hz => hacc (mem_jsSpliceRemoveOne hz))
  have hbase := hfold oldIds (0, cs) (List.Subset.refl cs)
  rcases mem_jsSpliceInsert h with h1 | h1
  · exact Or.inl (hbase h1)
  · exact Or.inr h1

theorem replaceNodesWithNodes_mem_news {oldIds : List Nat} (news cs : List PNode)
    {x : PNode} (h : x ∈ news) : x ∈ replaceNodesWithNodes oldIds news cs := by
  exact jsSpliceInsert_mem_news _ _ _ h

/-! ## Lemmas: scanning -/

theorem scanOne_children (side : Side) (st : HTMLDocument) (n : PNode) :
    (scanOne side st n).headChildren = st.headChildren ∧
    (scanOne side st n).bodyChildren = st.bodyChildren := by
  simp only [scanOne]
  split <;> try simp
  split_ifs <;> simp

theorem scan_children (side : Side) (ns : List PNode) (st : HTMLDocument) :
    (findScriptStyleTagComment side ns st).headChildren = st.headChildren ∧
    (findScriptStyleTagComment side ns st).bodyChildren = st.bodyChildren := by
  induction ns generalizing st with
  | nil => exact ⟨rfl, rfl⟩
  | cons n ns ih =>
      have h1 := scanOne_children side st n
      have h2 := ih (scanOne side st n)
      simp only [findScriptStyleTagComment, List.foldl_cons] at *
      exact ⟨h2.1.trans h1.1, h2.2.trans h1.2⟩

theorem classify_mockScriptNode (nm : String) :
    classify (mockScriptNode nm) = ⟨.script, some (stripExt nm), "", 0⟩ := rfl

theorem classify_mockStyleNode (nm : String) :
    classify (mockStyleNode nm) = ⟨.style, some (stripExt nm), "", 0⟩ := rfl

theorem scanOne_mockScript (side : Side) (st : HTMLDocument) (nm : String) :
    scanOne side st (mockScriptNode nm)
      = { st with scriptResources := st.scriptResources ++ [classify (mockScriptNode nm)] } :=
  rfl

theorem scanOne_mockStyle (side : Side) (st : HTMLDocument) (nm : String) :
    scanOne side st (mockStyleNode nm)
      = { st with stylesResources := st.stylesResources ++ [classify (mockStyleNode nm)] } :=
  rfl

theorem scan_mockScripts (side : Side) (as : List String) (st : HTMLDocument) :
    findScriptStyleTagComment side (as.map mockScriptNode) st
      = { st with scriptResources :=
            st.scriptResources ++ as.map (fun nm => classify (mockScriptNode nm)) } := by
  induction as generalizing st with
  | nil => simp [findScriptStyleTagComment]
  | cons a as ih =>
      simp only [List.map_cons, findScriptStyleTagComment, List.foldl_cons,
        scanOne_mockScript]
      rw [show (List.foldl (scanOne side)
          { st with scriptResources := st.scriptResources ++ [classify (mockScriptNode a)] }
          (as.map mockScriptNode)) = findScriptStyleTagComment side (as.map mockScriptNode)
          { st with scriptResources := st.scriptResources ++ [classify (mockScriptNode a)] }
        from rfl, ih]
      simp

theorem scan_mockStyles (side : Side) (bs : List String) (st : HTMLDocument) :
    findScriptStyleTagComment side (bs.map mockStyleNode) st
      = { st with stylesResources :=
            st.stylesResources ++ bs.map (fun nm => classify (mockStyleNode nm)) } := by
  induction bs generalizing st with
  | nil => simp [findScriptStyleTagComment]
  | cons b bs ih =>
      simp only [List.map_cons, findScriptStyleTagComment, List.foldl_cons,
        scanOne_mockStyle]
      rw [show (List.foldl (scanOne side)
          { st with stylesResources := st.stylesResources ++ [classify (mockStyleNode b)] }
          (bs.map mockStyleNode)) = findScriptStyleTagComment side (bs.map mockStyleNode)
          { st with stylesResources := st.stylesResources ++ [classify (mockStyleNode b)] }
        from rfl, ih]
      simp

theorem scan_mocks_append (side : Side) (ls lst : List String) (st : HTMLDocument) :
    findScriptStyleTagComment side (ls.map mockScriptNode ++ lst.map mockStyleNode) st
      = { st with
          scriptResources :=
            st.scriptResources ++ ls.map (fun nm => classify (mockScriptNode nm)),
          stylesResources :=
            st.stylesResources ++ lst.map (fun nm => classify (mockStyleNode nm)) } := by
  simp only [findScriptStyleTagComment, List.foldl_append]
  rw [show (List.foldl (scanOne side) st (ls.map mockScriptNode))
      = findScriptStyleTagComment side (ls.map mockScriptNode) st from rfl,
    scan_mockScripts]
  rw [show ∀ st', (List.foldl (scanOne side) st' (lst.map mockStyleNode))
      = findScriptStyleTagComment side (lst.map mockStyleNode) st'
    from fun st' => rfl, scan_mockStyles]

/-! ## Lemmas: the reconciliation passes -/

theorem ensureRequireScripts_of_dropPresent_nil {d : HTMLDocument} {R : List String}
    (h : dropPresent d.scriptResources R = []) :
    ensureRequireScripts d R = some (d, []) := by
  simp [ensureRequireScripts, h]

theorem ensureRequireStyles_of_dropPresent_nil {d : HTMLDocument} {R : List String}
    (h : dropPresent d.stylesResources R = []) :
    ensureRequireStyles d R = some (d, []) := by
  simp [ensureRequireStyles, h]

theorem ensureRequireScripts_eq {d d' : HTMLDocument} {R : List String}
    {ls : List PNode} (h : ensureRequireScripts d R = some (d', ls)) :
    ls = (dropPresent d.scriptResources R).map mockScriptNode
    ∧ d'.scriptResources = d.scriptResources
    ∧ d'.stylesResources = d.stylesResources
    ∧ d'.scriptInject = d.scriptInject
    ∧ d'.styleInject = d.styleInject := by
  unfold ensureRequireScripts at h
  split at h
  · next he =>
      rw [List.isEmpty_iff] at he
      obtain ⟨rfl, rfl⟩ : d = d' ∧ ([] : List PNode) = ls := by simpa using h
      simp [he]
  · split at h
    · next side mid heq =>
        split at h
        · next cs hcs =>
            obtain ⟨rfl, rfl⟩ :
                setSideChildren d side
                    (replaceNodesWithNodes [mid] (leftScriptNodesOf d R) cs) = d'
                ∧ leftScriptNodesOf d R = ls := by
              simpa using h
            cases side <;> simp [setSideChildren, leftScriptNodesOf]
        · exact absurd h (by simp)
    · next heq =>
        split at h
        · next bs hbs =>
            obtain ⟨rfl, rfl⟩ :
                ({ d with bodyChildren := some (bs ++ leftScriptNodesOf d R) }) = d'
                ∧ leftScriptNodesOf d R = ls := by
              simpa using h
            simp [leftScriptNodesOf]
        · exact absurd h (by simp)

theorem ensureRequireStyles_eq {d d' : HTMLDocument} {R : List String}
    {ls : List PNode} (h : ensureRequireStyles d R = some (d', ls)) :
    ls = (dropPresent d.stylesResources R).map mockStyleNode
    ∧ d'.scriptResources = d.scriptResources
    ∧ d'.stylesResources = d.stylesResources
    ∧ d'.scriptInject = d.scriptInject
    ∧ d'.styleInject = d.styleInject := by
  unfold ensureRequireStyles at h
  split at h
  · next he =>
      rw [List.isEmpty_iff] at he
      obtain ⟨rfl, rfl⟩ : d = d' ∧ ([] : List PNode) = ls := by simpa using h
      simp [he]
  · split at h
    · next side mid heq =>
        split at h
        · next cs hcs =>
            obtain ⟨rfl, rfl⟩ :
                setSideChildren d side
                    (replaceNodesWithNodes [mid] (leftStyleNodesOf d R) cs) = d'
                ∧ leftStyleNodesOf d R = ls := by
              simpa using h
            cases side <;> simp [setSideChildren, leftStyleNodesOf]
        · exact absurd h (by simp)
    · next heq =>
        split at h
        · next hs hhs =>
            obtain ⟨rfl, rfl⟩ :
                ({ d with headChildren := some (hs ++ leftStyleNodesOf d R) }) = d'
                ∧ leftStyleNodesOf d R = ls := by
              simpa using h
            simp [leftStyleNodesOf]
        · exact absurd h (by simp)

end WebPlugin

namespace WebPlugin

/-! ## Lemmas: where the reconciliation passes put their nodes -/

theorem treeLinkHrefs_eq (d : HTMLDocument) :
    treeLinkHrefs d = (anchorChildren d).filterMap nodeLinkHref := rfl

theorem treeScriptSrcs_eq (d : HTMLDocument) :
    treeScriptSrcs d = (anchorChildren d).filterMap nodeScriptSrc := rfl

theorem anchorChildren_scan (side : Side) (ns : List PNode) (st : HTMLDocument) :
    anchorChildren (findScriptStyleTagComment side ns st) = anchorChildren st := by
  obtain ⟨h1, h2⟩ := scan_children side ns st
  simp [anchorChildren, h1, h2]

theorem ensureRequireScripts_mem_tree {d d' : HTMLDocument} {R : List String}
    {ls : List PNode} {r : String}
    (h : ensureRequireScripts d R = some (d', ls))
    (hr : r ∈ dropPresent d.scriptResources R) :
    mockScriptNode r ∈ anchorChildren d' := by
  have hmem : mockScriptNode r ∈ leftScriptNodesOf d R :=
    List.mem_map_of_mem mockScriptNode hr
  unfold ensureRequireScripts at h
  split at h
  · next he =>
      rw [List.isEmpty_iff] at he
      rw [he] at hr
      cases hr
  · split at h
    · next side mid heq =>
        split at h
        · next cs hcs =>
            obtain ⟨rfl, rfl⟩ :
                setSideChildren d side
                    (replaceNodesWithNodes [mid] (leftScriptNodesOf d R) cs) = d'
                ∧ leftScriptNodesOf d R = ls := by
              simpa using h
            have : mockScriptNode r
                ∈ replaceNodesWithNodes [mid] (leftScriptNodesOf d R) cs :=
              replaceNodesWithNodes_mem_news _ _ hmem
            cases side <;> simp [anchorChildren, setSideChildren, this]
        · exact absurd h (by simp)
    · next heq =>
        split at h
        · next bs hbs =>
            obtain ⟨rfl, rfl⟩ :
                ({ d with bodyChildren := some (bs ++ leftScriptNodesOf d R) }) = d'
                ∧ leftScriptNodesOf d R = ls := by
              simpa using h
            simp [anchorChildren, hmem]
        · exact absurd h (by simp)

theorem ensureRequireStyles_mem_tree {d d' : HTMLDocument} {R : List String}
    {ls : List PNode} {r : String}
    (h : ensureRequireStyles d R = some (d', ls))
    (hr : r ∈ dropPresent d.stylesResources R) :
    mockStyleNode r ∈ anchorChildren d' := by
  have hmem : mockStyleNode r ∈ leftStyleNodesOf d R :=
    List.mem_map_of_mem mockStyleNode hr
  unfold ensureRequireStyles at h
  split at h
  · next he =>
      rw [List.isEmpty_iff] at he
      rw [he] at hr
      cases hr
  · split at h
    · next side mid heq =>
        split at h
        · next cs hcs =>
            obtain ⟨rfl, rfl⟩ :
                setSideChildren d side
                    (replaceNodesWithNodes [mid] (leftStyleNodesOf d R) cs) = d'
                ∧ leftStyleNodesOf d R = ls := by
              simpa using h
            have : mockStyleNode r
                ∈ replaceNodesWithNodes [mid] (leftStyleNodesOf d R) cs :=
              replaceNodesWithNodes_mem_news _ _ hmem
            cases side <;> simp [anchorChildren, setSideChildren, this]
        · exact absurd h (by simp)
    · next heq =>
        split at h
        · next hs hhs =>
            obtain ⟨rfl, rfl⟩ :
                ({ d with headChildren := some (hs ++ leftStyleNodesOf d R) }) = d'
                ∧ leftStyleNodesOf d R = ls := by
              simpa using h
            simp [anchorChildren, hmem]
        · exact absurd h (by simp)

theorem ensureRequireScripts_children_mem {d d' : HTMLDocument} {R : List String}
    {ls : List PNode} (h : ensureRequireScripts d R = some (d', ls)) :
    ∀ n ∈ anchorChildren d', n ∈ anchorChildren d ∨ n ∈ ls := by
  unfold ensureRequireScripts at h
  split at h
  · next he =>
      obtain ⟨rfl, rfl⟩ : d = d' ∧ ([] : List PNode) = ls := by simpa using h
      exact fun n hn => Or.inl hn
  · split at h
    · next side mid heq =>
        split at h
        · next cs hcs =>
            obtain ⟨rfl, rfl⟩ :
                setSideChildren d side
                    (replaceNodesWithNodes [mid] (leftScriptNodesOf d R) cs) = d'
                ∧ leftScriptNodesOf d R = ls := by
              simpa using h
            intro n hn
            cases side with
            | head =>
                have hcs' : d.headChildren = some cs := hcs
                simp only [anchorChildren, setSideChildren, Option.getD_some,
                  List.mem_append] at hn
                rcases hn with hn | hn
                · rcases mem_replaceNodesWithNodes hn with h1 | h1
                  · exact Or.inl (by simp [anchorChildren, hcs', List.mem_append, h1])
                  · exact Or.inr h1
                · exact Or.inl (by simp [anchorChildren, List.mem_append, hn])
            | body =>
                have hcs' : d.bodyChildren = some cs := hcs
                simp only [anchorChildren, setSideChildren, Option.getD_some,
                  List.mem_append] at hn
                rcases hn with hn | hn
                · exact Or.inl (by simp [anchorChildren, List.mem_append, hn])
                · rcases mem_replaceNodesWithNodes hn with h1 | h1
                  · exact Or.inl (by simp [anchorChildren, hcs', List.mem_append, h1])
                  · exact Or.inr h1
        · exact absurd h (by simp)
    · next heq =>
        split at h
        · next bs hbs =>
            obtain ⟨rfl, rfl⟩ :
                ({ d with bodyChildren := some (bs ++ leftScriptNodesOf d R) }) = d'
                ∧ leftScriptNodesOf d R = ls := by
              simpa using h
            intro n hn
            simp only [anchorChildren, Option.getD_some, List.mem_append] at hn
            rcases hn with hn | hn | hn
            · exact Or.inl (by simp [anchorChildren, List.mem_append, hn])
            · exact Or.inl (by simp [anchorChildren, hbs, List.mem_append, hn])
            · exact Or.inr hn
        · exact absurd h (by simp)

theorem nodeLinkHref_mockScript (r : String) :
    nodeLinkHref (mockScriptNode r) = none := rfl

theorem nodeLinkHref_mockStyle (r : String) :
    nodeLinkHref (mockStyleNode r) = some r := rfl

theorem nodeScriptSrc_mockScript (r : String) :
    nodeScriptSrc (mockScriptNode r) = some r := rfl

end WebPlugin

namespace WebPlugin

/-! ## Lemmas: `_findOutAll` on non-conformant trees -/

theorem findOutAllStep_of_not_html {st : HTMLDocument} {n : PNode}
    (h : n.tagOf ≠ some "html") : findOutAllStep st n = st := by
  cases n with
  | element i t attrs kids =>
      have ht : t ≠ "html" := fun hc => h (by simp [PNode.tagOf, hc])
      simp [findOutAllStep, ht]
  | text i v => rfl
  | comment i dt => rfl

theorem findOutAll_of_no_html {cs : List PNode}
    (hno : ∀ n ∈ cs, n.tagOf ≠ some "html") : findOutAll cs = emptyDoc := by
  unfold findOutAll
  induction cs with
  | nil => rfl
  | cons n cs ih =>
      rw [List.foldl_cons, findOutAllStep_of_not_html (hno n (by simp))]
      exact ih (fun m hm => hno m (List.mem_cons_of_mem n hm))

end WebPlugin

namespace WebPlugin

/-! ## The claims -/

/-- C1: the claim says two `Document` constructions from one template path
yield independently mutable head/body child lists.  The code refutes it:
`clone()`'s shallow `Object.assign` makes every clone share the prototype's
head/body *node objects*, and its array-copy assignment re-points the
shared node's `childNodes`, so after the second construction the first
document, the cached prototype and the second document all read the same
childNodes array — the script injected through the second document appears
in all three. -/
theorem C1_clone_shares_child_lists :
    bodyChildrenOf c1AfterInject c1Doc1
      = [PNode.comment 11 "SCRIPT", mockScriptNode "app"]
    ∧ bodyChildrenOf c1AfterInject c1Cache.2
      = [PNode.comment 11 "SCRIPT", mockScriptNode "app"]
    ∧ bodyChildrenOf c1AfterInject c1Second.2
      = [PNode.comment 11 "SCRIPT", mockScriptNode "app"] :=
  ⟨rfl, rfl, rfl⟩

/-- C3: after one scripts pass, the scanned script resources are untouched
and every required chunk name is present: either it matched a scanned
script resource's chunk name, or a new script node carrying it as `src`
stands in the tree. -/
theorem C3_reconcile_superset (d d' : HTMLDocument) (R : List String)
    (ls : List PNode) (h : ensureRequireScripts d R = some (d', ls)) :
    d'.scriptResources = d.scriptResources ∧ ∀ r ∈ R, r ∈ presentScriptNames d' := by
  obtain ⟨hls, hres, h2, h3, h4⟩ := ensureRequireScripts_eq h
  refine ⟨hres, fun r hr => ?_⟩
  rcases mem_dropPresent_or_names d.scriptResources hr with hleft | hpres
  · have hmem := ensureRequireScripts_mem_tree h hleft
    have htree : r ∈ treeScriptSrcs d' := by
      rw [treeScriptSrcs_eq]
      exact List.mem_filterMap.mpr ⟨mockScriptNode r, hmem, nodeScriptSrc_mockScript r⟩
    simp [presentScriptNames, htree]
  · simp [presentScriptNames, hres, hpres]

/-- C3 witness: reconciling the plain document with `["app"]` makes `app`
present. -/
theorem C3_reconcile_superset_witness : "app" ∈ presentScriptNames c3res.1 :=
  (C3_reconcile_superset exPlain c3res.1 ["app"] c3res.2 rfl).2 "app" (by simp)

/-- C4: when a script-injection marker was scanned (at position `i` of its
parent's child list) and the left-over list is non-empty, the pass replaces
the marker in place: the final child list is the old one with the marker
node swapped for exactly the left-over script nodes (one per name, an
order-preserving sublist of the required list), and no node with the
marker's identity remains. -/
theorem C4_marker_replacement (d : HTMLDocument) (R : List String) (side : Side)
    (mid i : Nat) (cs : List PNode)
    (hinj : d.scriptInject = some (side, mid))
    (hcs : getSideChildren d side = some cs)
    (hfind : jsFindIdx (fun n => n.id == mid) cs = some i)
    (hne : dropPresent d.scriptResources R ≠ [])
    (huniq : (cs.filter (fun n => n.id == mid)).length ≤ 1)
    (hmid : mid ≠ 0) :
    ensureRequireScripts d R
      = some (setSideChildren d side
          (cs.take i ++ leftScriptNodesOf d R ++ cs.drop (i + 1)),
        leftScriptNodesOf d R)
    ∧ List.Sublist (dropPresent d.scriptResources R) R
    ∧ ∀ n ∈ cs.take i ++ leftScriptNodesOf d R ++ cs.drop (i + 1), n.id ≠ mid := by
  have hcond : ¬ ((dropPresent d.scriptResources R).isEmpty = true) := by
    simpa [List.isEmpty_iff] using hne
  have hrepl := replaceNodesWithNodes_single (leftScriptNodesOf d R) hfind
  refine ⟨?_, dropPresent_sublist d.scriptResources R, ?_⟩
  · unfold ensureRequireScripts
    rw [if_neg hcond]
    simp only [hinj]
    simp only [hcs]
    rw [hrepl]
  · obtain ⟨x, hdec, hx, hpre⟩ := jsFindIdx_decomp hfind
    have hfilter : (cs.drop (i + 1)).filter (fun n => n.id == mid) = [] := by
      have hsplit : cs.filter (fun n => n.id == mid)
          = (cs.take i).filter (fun n => n.id == mid)
            ++ x :: (cs.drop (i + 1)).filter (fun n => n.id == mid) := by
        conv_lhs => rw [hdec]
        simp [List.filter_append, List.filter_cons, hx]
      have htake : (cs.take i).filter (fun n => n.id == mid) = [] :=
        List.filter_eq_nil.mpr (fun a ha => by simp [hpre a ha])
      rw [htake, List.nil_append] at hsplit
      rw [hsplit] at huniq
      simp only [List.length_cons] at huniq
      have hlen : ((cs.drop (i + 1)).filter (fun n => n.id == mid)).length = 0 := by
        omega
      exact List.eq_nil_of_length_eq_zero hlen
    intro n hn hnid
    rcases List.mem_append.mp hn with hn1 | hn2
    · rcases List.mem_append.mp hn1 with hn3 | hn4
      · have := hpre n hn3
        simp [hnid] at this
      · rcases List.mem_map.mp hn4 with ⟨r, hrmem, rfl⟩
        exact hmid (by simpa [mockScriptNode, PNode.id] using hnid.symm)
    · have : n ∈ (cs.drop (i + 1)).filter (fun n => n.id == mid) :=
        List.mem_filter.mpr ⟨hn2, by simp [hnid]⟩
      rw [hfilter] at this
      cases this

/-- C4 witness: the marker of `exDoc` sits at index 0 of the body; after the
scripts pass with `["app"]` one script node replaces it there. -/
theorem C4_marker_replacement_witness :
    ensureRequireScripts exDoc ["app"]
      = some (setSideChildren exDoc Side.body
          ([PNode.comment 4 "SCRIPT", PNode.text 5 "end"].take 0
            ++ leftScriptNodesOf exDoc ["app"]
            ++ [PNode.comment 4 "SCRIPT", PNode.text 5 "end"].drop 1),
        leftScriptNodesOf exDoc ["app"])
    ∧ List.Sublist (dropPresent exDoc.scriptResources ["app"]) ["app"]
    ∧ ∀ n ∈ [PNode.comment 4 "SCRIPT", PNode.text 5 "end"].take 0
          ++ leftScriptNodesOf exDoc ["app"]
          ++ [PNode.comment 4 "SCRIPT", PNode.text 5 "end"].drop 1,
        n.id ≠ 4 :=
  C4_marker_replacement exDoc ["app"] Side.body 4 0
    [PNode.comment 4 "SCRIPT", PNode.text 5 "end"]
    rfl rfl rfl (by decide) (by decide) (by decide)

/-- C6: the claim says reconciliation tolerates an unresolved (null) body
anchor without crashing, treating it as "no insertion point found".  The
code refutes the second half: with no `html` element the anchors indeed
stay null, but injecting a non-empty left-over list with no marker
dereferences `this.bodyNode.childNodes` on `null` and throws (modelled as
`none`). -/
theorem C6_null_anchor (cs : List PNode) (R : List String)
    (hno : ∀ n ∈ cs, n.tagOf ≠ some "html") (hR : R ≠ []) :
    (findOutAll cs).headChildren = none ∧ (findOutAll cs).bodyChildren = none
    ∧ ensureRequireScripts (findOutAll cs) R = none := by
  rw [findOutAll_of_no_html hno]
  refine ⟨rfl, rfl, ?_⟩
  have hdp : dropPresent emptyDoc.scriptResources R = R := rfl
  have hcond : ¬ ((dropPresent emptyDoc.scriptResources R).isEmpty = true) := by
    rw [hdp]
    simpa [List.isEmpty_iff] using hR
  unfold ensureRequireScripts
  rw [if_neg hcond]
  rfl

/-- C6 witness: a template reduced to a single `div` leaves the anchors
null and the scripts pass with `["app"]` fails. -/
theorem C6_null_anchor_witness :
    (findOutAll [PNode.element 1 "div" [] []]).headChildren = none
    ∧ (findOutAll [PNode.element 1 "div" [] []]).bodyChildren = none
    ∧ ensureRequireScripts (findOutAll [PNode.element 1 "div" [] []]) ["app"] = none :=
  C6_null_anchor [PNode.element 1 "div" [] []] ["app"] (by decide) (by decide)

/-- C6 counterexample: the claim as stated — the null body anchor is
"tolerated without crashing" — is false at this concrete input: the scripts
pass evaluates to `none`, the model of the thrown `TypeError` (reading
`childNodes` of `null`), instead of succeeding as "no insertion point
found" would. -/
theorem C6_null_anchor_counterexample :
    ensureRequireScripts (findOutAll [PNode.element 1 "div" [] []]) ["app"] = none :=
  rfl

/-- C8: the claim says a shared-chunk pass is registered iff a
commons-chunk configuration was supplied, and that without one registration
still succeeds with each page requiring only its own chunk.  The code
refutes this for `commonsChunk: null` — its own doc comment says "if this
is null will not do commonsChunk action", but
`commonsChunk != null || typeof commonsChunk === 'object'` is true for
`null` (`typeof null === 'object'`), so `apply` reads `null.name` while
building the page's requires and throws (`none`).  With the option absent
(`undefined`) the claimed behaviour does hold, as the second conjunct
shows. -/
theorem C8_null_commonsChunk_breaks_apply :
    applyAuto [("home", c8Entry)] JsVal.jsnull none none = none
    ∧ applyAuto [("home", c8Entry)] JsVal.undef none none
      = some ⟨[⟨"home", ["pages/home/"], none, "home.html", ["home"]⟩], none⟩ :=
  ⟨rfl, rfl⟩

end WebPlugin

namespace WebPlugin

/-! ## Lemmas: destructuring `ensureRequires` -/

theorem ensureRequires_eq {d dF : HTMLDocument} {R : List String} {flag : Bool}
    (h : ensureRequires d R flag = some dF) :
    ∃ dA ls d2 lst, ensureRequireScripts d R = some (dA, ls)
      ∧ (if flag then ensureRequireStyles dA R else some (dA, [])) = some (d2, lst)
      ∧ dF = findScriptStyleTagComment Side.body (ls ++ lst) d2 := by
  unfold ensureRequires at h
  cases hS : ensureRequireScripts d R with
  | none => rw [hS] at h; cases h
  | some p =>
      obtain ⟨dA, ls⟩ := p
      simp only [hS] at h
      cases hT : (if flag then ensureRequireStyles dA R else some (dA, [])) with
      | none => rw [hT] at h; cases h
      | some q =>
          obtain ⟨d2, lst⟩ := q
          simp only [hT] at h
          exact ⟨dA, ls, d2, lst, rfl, hT, (Option.some.inj h).symm⟩

/-- C7: the style pass runs exactly when the externally supplied
styles-extracted flag is set.  With the flag off, reconciliation adds no
stylesheet link (every link href in the result was already in the
document); with the flag on, every still-required style chunk ends up as a
`link rel=stylesheet` in the tree. -/
theorem C7_style_pass_iff_flag (d dF dT : HTMLDocument) (R : List String)
    (hF : ensureRequires d R false = some dF)
    (hT : ensureRequires d R true = some dT) :
    (∀ x ∈ treeLinkHrefs dF, x ∈ treeLinkHrefs d)
    ∧ ∀ r ∈ dropPresent d.stylesResources R, r ∈ treeLinkHrefs dT := by
  constructor
  · obtain ⟨dA, ls, d2, lst, hS, hstep, rfl⟩ := ensureRequires_eq hF
    obtain ⟨rfl, rfl⟩ : dA = d2 ∧ ([] : List PNode) = lst := by simpa using hstep
    intro x hx
    rw [treeLinkHrefs_eq, anchorChildren_scan] at hx
    obtain ⟨n, hnmem, hnhref⟩ := List.mem_filterMap.mp hx
    obtain ⟨hls, -, -, -, -⟩ := ensureRequireScripts_eq hS
    rcases ensureRequireScripts_children_mem hS n hnmem with hn1 | hn2
    · rw [treeLinkHrefs_eq]
      exact List.mem_filterMap.mpr ⟨n, hn1, hnhref⟩
    · rw [hls] at hn2
      rcases List.mem_map.mp hn2 with ⟨r, -, rfl⟩
      rw [nodeLinkHref_mockScript] at hnhref
      cases hnhref
  · obtain ⟨dA, ls, d2, lst, hS, hstep, rfl⟩ := ensureRequires_eq hT
    have hstep' : ensureRequireStyles dA R = some (d2, lst) := by simpa using hstep
    intro r hr
    obtain ⟨-, -, hAsty, -, -⟩ := ensureRequireScripts_eq hS
    have hr' : r ∈ dropPresent dA.stylesResources R := by rw [hAsty]; exact hr
    have hmem := ensureRequireStyles_mem_tree hstep' hr'
    rw [treeLinkHrefs_eq, anchorChildren_scan]
    exact List.mem_filterMap.mpr ⟨mockStyleNode r, hmem, nodeLinkHref_mockStyle r⟩

/-- C7 witness: on the plain document with `["app"]`, the flag-off run adds
no link, the flag-on run injects `link href="app"`. -/
theorem C7_style_pass_iff_flag_witness :
    (∀ x ∈ treeLinkHrefs c7dF, x ∈ treeLinkHrefs exPlain)
    ∧ "app" ∈ treeLinkHrefs c7dT :=
  ⟨(C7_style_pass_iff_flag exPlain c7dF c7dT ["app"] rfl rfl).1,
   (C7_style_pass_iff_flag exPlain c7dF c7dT ["app"] rfl rfl).2 "app" (by decide)⟩

end WebPlugin

namespace WebPlugin

/-! ## Lemmas: marker recording -/

theorem getLast?_cons_eq {α : Type} (a : α) (l : List α) :
    (a :: l).getLast? = (l.getLast?).elim (some a) some := by
  induction l generalizing a with
  | nil => simp
  | cons b l ih =>
      rw [List.getLast?_cons_cons, ih b]
      cases hl : l.getLast? <;> simp

theorem scanOne_inject (side : Side) (st : HTMLDocument) (n : PNode) :
    (scanOne side st n).scriptInject
      = ((markerIdOf "SCRIPT" n).elim st.scriptInject (fun i => some (side, i)))
    ∧ (scanOne side st n).styleInject
      = ((markerIdOf "STYLE" n).elim st.styleInject (fun i => some (side, i))) := by
  cases n with
  | element i t attrs kids =>
      constructor <;>
      · simp only [scanOne, classify, markerIdOf]
        split_ifs <;> simp
  | text i v => constructor <;> simp [scanOne, classify, markerIdOf]
  | comment i dt =>
      by_cases h1 : jsTrim dt = "SCRIPT"
      · have h2 : ¬ (jsTrim dt = "STYLE") := by rw [h1]; decide
        constructor <;> simp [scanOne, classify, markerIdOf, h1, h2]
      · by_cases h2 : jsTrim dt = "STYLE"
        · constructor <;> simp [scanOne, classify, markerIdOf, h1, h2]
        · constructor <;> simp [scanOne, classify, markerIdOf, h1, h2]

/-- C9: scanning a child list is total (no error is raised), and when
several injection-marker comments of one kind occur, the recorded marker is
the last one scanned — for the `SCRIPT` and the `STYLE` payload alike; a
list without such a marker leaves the previously recorded one in place. -/
theorem C9_last_marker_wins (side : Side) (ns : List PNode) (st : HTMLDocument) :
    (findScriptStyleTagComment side ns st).scriptInject
      = ((markersOf "SCRIPT" ns).getLast?).elim st.scriptInject (fun i => some (side, i))
    ∧ (findScriptStyleTagComment side ns st).styleInject
      = ((markersOf "STYLE" ns).getLast?).elim st.styleInject (fun i => some (side, i)) := by
  induction ns generalizing st with
  | nil => constructor <;> simp [findScriptStyleTagComment, markersOf]
  | cons n ns ih =>
      obtain ⟨hs1, hs2⟩ := scanOne_inject side st n
      obtain ⟨ih1, ih2⟩ := ih (scanOne side st n)
      have hfold : findScriptStyleTagComment side (n :: ns) st
          = findScriptStyleTagComment side ns (scanOne side st n) := rfl
      constructor
      · rw [hfold, ih1, hs1]
        cases hm : markerIdOf "SCRIPT" n with
        | none => simp [markersOf, List.filterMap_cons, hm]
        | some j =>
            simp only [markersOf, List.filterMap_cons, hm]
            rw [getLast?_cons_eq]
            cases (ns.filterMap (markerIdOf "SCRIPT")).getLast? <;> simp
      · rw [hfold, ih2, hs2]
        cases hm : markerIdOf "STYLE" n with
        | none => simp [markersOf, List.filterMap_cons, hm]
        | some j =>
            simp only [markersOf, List.filterMap_cons, hm]
            rw [getLast?_cons_eq]
            cases (ns.filterMap (markerIdOf "STYLE")).getLast? <;> simp

end WebPlugin

namespace WebPlugin

/-! ## Lemmas: the compact (`mini`) pass -/

theorem miniList_cons_comment_keep {dt : String} (j : Nat) (rest : List PNode)
    (h : jsStartsWith dt "[if " = true) :
    miniList (.comment j dt :: rest) = .comment j dt :: miniList rest := by
  simp [miniList, h]

theorem miniList_cons_comment_drop {dt : String} (j : Nat) (rest : List PNode)
    (h : jsStartsWith dt "[if " = false) :
    miniList (.comment j dt :: rest) = miniList rest := by
  simp [miniList, h]

theorem miniList_cons_text_drop {v : String} (j : Nat) (rest : List PNode)
    (h : jsTrim v = "") :
    miniList (.text j v :: rest) = miniList rest := by
  simp [miniList, h]

theorem miniList_cons_text_keep {v : String} (j : Nat) (rest : List PNode)
    (h : ¬ (jsTrim v = "")) :
    miniList (.text j v :: rest) = .text j (jsTrim v) :: miniList rest := by
  simp [miniList, h]

theorem miniList_cons_element (j : Nat) (t : String)
    (attrs : List (String × String)) (kids rest : List PNode) :
    miniList (.element j t attrs kids :: rest)
      = .element j t attrs kids :: miniList rest := by
  simp [miniList]

theorem miniList_sound (cs : List PNode) : miniSound cs (miniList cs) := by
  induction cs with
  | nil =>
      refine ⟨?_, ?_, ?_⟩
      · intro i dt h; simp [miniList] at h
      · intro i v h; simp [miniList] at h
      · simp [miniList]
  | cons n rest ih =>
      obtain ⟨ihc, iht, ihe⟩ := ih
      cases n with
      | comment j dt =>
          by_cases hst : jsStartsWith dt "[if " = true
          · refine ⟨?_, ?_, ?_⟩
            · intro i dt' h
              rw [miniList_cons_comment_keep j rest hst] at h
              rcases List.mem_cons.mp h with heq | h'
              · rw [PNode.comment.injEq] at heq
                obtain ⟨rfl, rfl⟩ := heq
                exact ⟨hst, List.mem_cons_self _ _⟩
              · obtain ⟨h1, h2⟩ := ihc i dt' h'
                exact ⟨h1, List.mem_cons_of_mem _ h2⟩
            · intro i v h
              rw [miniList_cons_comment_keep j rest hst] at h
              rcases List.mem_cons.mp h with heq | h'
              · cases heq
              · obtain ⟨h1, v0, h2, h3⟩ := iht i v h'
                exact ⟨h1, v0, List.mem_cons_of_mem _ h2, h3⟩
            · rw [miniList_cons_comment_keep j rest hst]
              simp [List.filter_cons, PNode.isElem, ihe]
          · have hst' : jsStartsWith dt "[if " = false := by
              simpa using hst
            refine ⟨?_, ?_, ?_⟩
            · intro i dt' h
              rw [miniList_cons_comment_drop j rest hst'] at h
              obtain ⟨h1, h2⟩ := ihc i dt' h
              exact ⟨h1, List.mem_cons_of_mem _ h2⟩
            · intro i v h
              rw [miniList_cons_comment_drop j rest hst'] at h
              obtain ⟨h1, v0, h2, h3⟩ := iht i v h
              exact ⟨h1, v0, List.mem_cons_of_mem _ h2, h3⟩
            · rw [miniList_cons_comment_drop j rest hst']
              simp [List.filter_cons, PNode.isElem, ihe]
      | text j v =>
          by_cases ht : jsTrim v = ""
          · refine ⟨?_, ?_, ?_⟩
            · intro i dt' h
              rw [miniList_cons_text_drop j rest ht] at h
              obtain ⟨h1, h2⟩ := ihc i dt' h
              exact ⟨h1, List.mem_cons_of_mem _ h2⟩
            · intro i v' h
              rw [miniList_cons_text_drop j rest ht] at h
              obtain ⟨h1, v0, h2, h3⟩ := iht i v' h
              exact ⟨h1, v0, List.mem_cons_of_mem _ h2, h3⟩
            · rw [miniList_cons_text_drop j rest ht]
              simp [List.filter_cons, PNode.isElem, ihe]
          · refine ⟨?_, ?_, ?_⟩
            · intro i dt' h
              rw [miniList_cons_text_keep j rest ht] at h
              rcases List.mem_cons.mp h with heq | h'
              · cases heq
              · obtain ⟨h1, h2⟩ := ihc i dt' h'
                exact ⟨h1, List.mem_cons_of_mem _ h2⟩
            · intro i v' h
              rw [miniList_cons_text_keep j rest ht] at h
              rcases List.mem_cons.mp h with heq | h'
              · rw [PNode.text.injEq] at heq
                obtain ⟨rfl, rfl⟩ := heq
                exact ⟨ht, v, List.mem_cons_self _ _, rfl⟩
              · obtain ⟨h1, v0, h2, h3⟩ := iht i v' h'
                exact ⟨h1, v0, List.mem_cons_of_mem _ h2, h3⟩
            · rw [miniList_cons_text_keep j rest ht]
              simp [List.filter_cons, PNode.isElem, ihe]
      | element j t attrs kids =>
          refine ⟨?_, ?_, ?_⟩
          · intro i dt' h
            rw [miniList_cons_element] at h
            rcases List.mem_cons.mp h with heq | h'
            · cases heq
            · obtain ⟨h1, h2⟩ := ihc i dt' h'
              exact ⟨h1, List.mem_cons_of_mem _ h2⟩
          · intro i v' h
            rw [miniList_cons_element] at h
            rcases List.mem_cons.mp h with heq | h'
            · cases heq
            · obtain ⟨h1, v0, h2, h3⟩ := iht i v' h'
              exact ⟨h1, v0, List.mem_cons_of_mem _ h2, h3⟩
          · rw [miniList_cons_element]
            simp [List.filter_cons, PNode.isElem, ihe]

/-- C5 (amended): the compact serialization preprocessing acts on the head
and body *immediate* child lists: afterwards every surviving comment there
is a conditional comment (`[if ` prefix) that was already present, every
surviving text node is the non-empty trim of an original text node, and
element nodes pass through untouched in order.  (It does not recurse into
nested elements — see the counterexample.) -/
theorem C5_compact_immediate (d d' : HTMLDocument) (hs bs : List PNode)
    (hh : d.headChildren = some hs) (hb : d.bodyChildren = some bs)
    (hp : serializeMiniPrep d = some d') :
    miniSound hs (d'.headChildren.getD []) ∧ miniSound bs (d'.bodyChildren.getD []) := by
  unfold serializeMiniPrep at hp
  rw [hh, hb] at hp
  obtain rfl :
      ({ d with headChildren := some (miniList hs),
                bodyChildren := some (miniList bs) }) = d' := by
    simpa using hp
  exact ⟨miniList_sound hs, miniList_sound bs⟩

/-- C5 witness: blank text and the plain comment vanish from the body's
immediate children of `exMessy`, the padded text is trimmed, the element
kept. -/
theorem C5_compact_immediate_witness :
    miniSound [] (c5res.headChildren.getD [])
    ∧ miniSound [PNode.text 6 "  ", PNode.comment 7 "x", PNode.text 8 " hi ",
        PNode.element 9 "p" [] []] (c5res.bodyChildren.getD []) :=
  C5_compact_immediate exMessy c5res
    [] [PNode.text 6 "  ", PNode.comment 7 "x", PNode.text 8 " hi ",
      PNode.element 9 "p" [] []] rfl rfl rfl

/-- C5 counterexample: the claim as stated — compact mode *recursively*
removes every non-conditional comment from the head and body subtrees — is
false: after the preprocessing the body still contains, one level down
inside the `div`, the comment `keep me`, whose text does not begin with
`[if `. -/
theorem C5_compact_immediate_counterexample :
    (serializeMiniPrep exNested).map (fun d => d.bodyChildren.getD [])
      = some [PNode.element 6 "div" [] [PNode.comment 7 "keep me"]]
    ∧ jsStartsWith "keep me" "[if " = false :=
  ⟨rfl, rfl⟩

end WebPlugin

namespace WebPlugin

/-! ## Lemmas: the string-array heap -/

theorem hGet_hAlloc_old {h : StrHeap} {v : List String} {r : Nat}
    (hr : r < h.arrs.length) : hGet (hAlloc h v).1 r = hGet h r := by
  simp [hGet, hAlloc, List.get?_eq_getElem?, List.getElem?_append_left hr]

theorem hGet_hAlloc_new (h : StrHeap) (v : List String) :
    hGet (hAlloc h v).1 h.arrs.length = v := by
  simp [hGet, hAlloc, List.get?_eq_getElem?, List.getElem?_concat_length]

theorem hGet_hSet_ne {h : StrHeap} {r r' : Nat} {v : List String} (hne : r' ≠ r) :
    hGet (hSet h r' v) r = hGet h r := by
  simp [hGet, hSet, List.get?_eq_getElem?, List.getElem?_set_ne hne]

theorem hGet_hSet_self {h : StrHeap} {r : Nat} {v : List String}
    (hr : r < h.arrs.length) : hGet (hSet h r v) r = v := by
  simp [hGet, hSet, List.get?_eq_getElem?, List.getElem?_set_self hr]

theorem hSet_length (h : StrHeap) (r : Nat) (v : List String) :
    (hSet h r v).arrs.length = h.arrs.length := by
  simp [hSet]

theorem hAlloc_length (h : StrHeap) (v : List String) :
    (hAlloc h v).1.arrs.length = h.arrs.length + 1 := by
  simp [hAlloc]

theorem scriptsArr_on_fresh (d : HTMLDocument) (h2 : StrHeap) (v : List String)
    (j : Nat) (hj : j < h2.arrs.length) :
    hGet (ensureRequireScriptsArr d (hAlloc h2 v).1 (hAlloc h2 v).2) j = hGet h2 j := by
  unfold ensureRequireScriptsArr
  rw [show (hAlloc h2 v).2 = h2.arrs.length from rfl,
    hGet_hSet_ne (Nat.ne_of_lt hj).symm, hGet_hAlloc_old hj]

theorem stylesArr_on_fresh (d : HTMLDocument) (h2 : StrHeap) (v : List String)
    (j : Nat) (hj : j < h2.arrs.length) :
    hGet (ensureRequireStylesArr d (hAlloc h2 v).1 (hAlloc h2 v).2) j = hGet h2 j := by
  unfold ensureRequireStylesArr
  rw [show (hAlloc h2 v).2 = h2.arrs.length from rfl,
    hGet_hSet_ne (Nat.ne_of_lt hj).symm, hGet_hAlloc_old hj]

theorem scriptsArr_on_fresh_val (d : HTMLDocument) (h2 : StrHeap) (v : List String) :
    hGet (ensureRequireScriptsArr d (hAlloc h2 v).1 (hAlloc h2 v).2) h2.arrs.length
      = dropPresent d.scriptResources v := by
  unfold ensureRequireScriptsArr
  rw [show (hAlloc h2 v).2 = h2.arrs.length from rfl, hGet_hAlloc_new]
  exact hGet_hSet_self (by rw [hAlloc_length]; omega)

theorem scriptsArr_on_fresh_length (d : HTMLDocument) (h2 : StrHeap) (v : List String) :
    (ensureRequireScriptsArr d (hAlloc h2 v).1 (hAlloc h2 v).2).arrs.length
      = h2.arrs.length + 1 := by
  unfold ensureRequireScriptsArr
  rw [hSet_length, hAlloc_length]

/-- C10: `ensureRequires` never mutates the caller's `requires` array: after
the call the array object passed in holds exactly its old contents, even
though the scripts pass destructively removed the already-present names
from its own working copy (the freshly allocated array at index
`h.arrs.length`, whose final contents are the filtered list). -/
theorem C10_caller_requires_preserved (d : HTMLDocument) (h : StrHeap) (r : Nat)
    (flag : Bool) (hr : r < h.arrs.length) :
    hGet (ensureRequiresArr d h r flag) r = hGet h r
    ∧ hGet (ensureRequiresArr d h r flag) h.arrs.length
      = dropPresent d.scriptResources (hGet h r) := by
  cases flag with
  | false =>
      exact ⟨scriptsArr_on_fresh d h (hGet h r) r hr,
        scriptsArr_on_fresh_val d h (hGet h r)⟩
  | true =>
      have hrH2 : r < (ensureRequireScriptsArr d (hAlloc h (hGet h r)).1
          (hAlloc h (hGet h r)).2).arrs.length := by
        rw [scriptsArr_on_fresh_length]
        omega
      have hlenH2 : h.arrs.length < (ensureRequireScriptsArr d (hAlloc h (hGet h r)).1
          (hAlloc h (hGet h r)).2).arrs.length := by
        rw [scriptsArr_on_fresh_length]
        omega
      constructor
      · show hGet (ensureRequireStylesArr d _ _) r = hGet h r
        exact (stylesArr_on_fresh d _ _ r hrH2).trans
          (scriptsArr_on_fresh d h (hGet h r) r hr)
      · show hGet (ensureRequireStylesArr d _ _) h.arrs.length
          = dropPresent d.scriptResources (hGet h r)
        exact (stylesArr_on_fresh d _ _ h.arrs.length hlenH2).trans
          (scriptsArr_on_fresh_val d h (hGet h r))

/-- C10 witness: with the caller's array `["a", "b"]` at reference 0 and a
template script of chunk `a`, the caller's array is unchanged while the
working copy at reference 1 ends as `["b"]`. -/
theorem C10_caller_requires_preserved_witness :
    hGet (ensureRequiresArr exResDoc ⟨[["a", "b"]]⟩ 0 false) 0
      = hGet ⟨[["a", "b"]]⟩ 0
    ∧ hGet (ensureRequiresArr exResDoc ⟨[["a", "b"]]⟩ 0 false) 1
      = dropPresent exResDoc.scriptResources (hGet ⟨[["a", "b"]]⟩ 0) :=
  C10_caller_requires_preserved exResDoc ⟨[["a", "b"]]⟩ 0 false (by decide)

end WebPlugin

namespace WebPlugin

/-! ## Lemmas: re-scanned chunk names and idempotence -/

theorem dropPresent_map_mockScript (Ls acc : List String) :
    dropPresent (Ls.map (fun nm => classify (mockScriptNode nm))) acc
      = Ls.foldl (fun a nm => removeFirstOcc a (stripExt nm)) acc := by
  simp [dropPresent, List.foldl_map, classify_mockScriptNode]

theorem dropPresent_map_mockStyle (Ls acc : List String) :
    dropPresent (Ls.map (fun nm => classify (mockStyleNode nm))) acc
      = Ls.foldl (fun a nm => removeFirstOcc a (stripExt nm)) acc := by
  simp [dropPresent, List.foldl_map, classify_mockStyleNode]

theorem foldl_removeFirstOcc_congr {Ls : List String} (acc : List String)
    (hfix : ∀ nm ∈ Ls, stripExt nm = nm) :
    Ls.foldl (fun a nm => removeFirstOcc a (stripExt nm)) acc
      = Ls.foldl removeFirstOcc acc := by
  induction Ls generalizing acc with
  | nil => rfl
  | cons x xs ih =>
      simp only [List.foldl_cons, hfix x (List.mem_cons_self x xs)]
      exact ih _ (fun nm h => hfix nm (List.mem_cons_of_mem x h))

theorem dropPresent_rescan_scripts {d : HTMLDocument} {R : List String}
    (hfix : ∀ r ∈ R, stripExt r = r) :
    dropPresent ((dropPresent d.scriptResources R).map
        (fun nm => classify (mockScriptNode nm)))
      (dropPresent d.scriptResources R) = [] := by
  rw [dropPresent_map_mockScript,
    foldl_removeFirstOcc_congr _
      (fun nm h => hfix nm ((dropPresent_sublist d.scriptResources R).subset h)),
    foldl_removeFirstOcc_self]

theorem dropPresent_rescan_styles {d : HTMLDocument} {R : List String}
    (hfix : ∀ r ∈ R, stripExt r = r) :
    dropPresent ((dropPresent d.stylesResources R).map
        (fun nm => classify (mockStyleNode nm)))
      (dropPresent d.stylesResources R) = [] := by
  rw [dropPresent_map_mockStyle,
    foldl_removeFirstOcc_congr _
      (fun nm h => hfix nm ((dropPresent_sublist d.stylesResources R).subset h)),
    foldl_removeFirstOcc_self]

/-- C2 (amended): reconciliation is idempotent provided no required chunk
name carries a file extension (extension-stripping leaves every name of `R`
unchanged; the injected nodes are re-scanned with their `src`/`href`
stripped of extensions, so a dotted name would not be recognised — see the
counterexample).  Under that proviso a second call with the same list
returns the same document unchanged. -/
theorem C2_idempotent_noext (d d1 : HTMLDocument) (R : List String) (flag : Bool)
    (hfix : ∀ r ∈ R, stripExt r = r)
    (h1 : ensureRequires d R flag = some d1) :
    ensureRequires d1 R flag = some d1 := by
  obtain ⟨dA, ls, d2, lst, hS, hstep, rfl⟩ := ensureRequires_eq h1
  obtain ⟨hls, hAscr, hAsty, -, -⟩ := ensureRequireScripts_eq hS
  cases flag with
  | false =>
      obtain ⟨rfl, rfl⟩ : dA = d2 ∧ ([] : List PNode) = lst := by simpa using hstep
      rw [List.append_nil, hls]
      have hres : (findScriptStyleTagComment Side.body
          ((dropPresent d.scriptResources R).map mockScriptNode) dA).scriptResources
          = dA.scriptResources ++ (dropPresent d.scriptResources R).map
              (fun nm => classify (mockScriptNode nm)) := by
        rw [scan_mockScripts]
      have hzeroS : dropPresent (findScriptStyleTagComment Side.body
          ((dropPresent d.scriptResources R).map mockScriptNode) dA).scriptResources R
          = [] := by
        rw [hres, dropPresent_append, hAscr, dropPresent_rescan_scripts hfix]
      unfold ensureRequires
      rw [ensureRequireScripts_of_dropPresent_nil hzeroS]
      rfl
  | true =>
      have hstep' : ensureRequireStyles dA R = some (d2, lst) := by simpa using hstep
      obtain ⟨hlst, hBscr, hBsty, -, -⟩ := ensureRequireStyles_eq hstep'
      rw [hls, hlst, hAsty]
      have hres1 : (findScriptStyleTagComment Side.body
          ((dropPresent d.scriptResources R).map mockScriptNode
            ++ (dropPresent d.stylesResources R).map mockStyleNode) d2).scriptResources
          = d2.scriptResources ++ (dropPresent d.scriptResources R).map
              (fun nm => classify (mockScriptNode nm)) := by
        rw [scan_mocks_append]
      have hres2 : (findScriptStyleTagComment Side.body
          ((dropPresent d.scriptResources R).map mockScriptNode
            ++ (dropPresent d.stylesResources R).map mockStyleNode) d2).stylesResources
          = d2.stylesResources ++ (dropPresent d.stylesResources R).map
              (fun nm => classify (mockStyleNode nm)) := by
        rw [scan_mocks_append]
      have hzeroS : dropPresent (findScriptStyleTagComment Side.body
          ((dropPresent d.scriptResources R).map mockScriptNode
            ++ (dropPresent d.stylesResources R).map mockStyleNode) d2).scriptResources R
          = [] := by
        rw [hres1, dropPresent_append, hBscr, hAscr, dropPresent_rescan_scripts hfix]
      have hzeroT : dropPresent (findScriptStyleTagComment Side.body
          ((dropPresent d.scriptResources R).map mockScriptNode
            ++ (dropPresent d.stylesResources R).map mockStyleNode) d2).stylesResources R
          = [] := by
        rw [hres2, dropPresent_append, hBsty, hAsty, dropPresent_rescan_styles hfix]
      unfold ensureRequires
      simp only [ensureRequireScripts_of_dropPresent_nil hzeroS, if_true,
        ensureRequireStyles_of_dropPresent_nil hzeroT]
      rfl

/-- C2 witness: reconciling `exDoc` with the extension-free name `app` once
and then again yields the once-reconciled document unchanged. -/
theorem C2_idempotent_noext_witness :
    ensureRequires exDocOnce ["app"] false = some exDocOnce :=
  C2_idempotent_noext exDoc exDocOnce ["app"] false (by decide) rfl

/-- C2 counterexample: the claim as stated — reconciling twice with the same
list yields the same script nodes as once, a name injected once never being
injected again — is false for the dotted chunk name `a.b`: the injected
`<script src="a.b">` is re-scanned with chunk name `a` (extension
stripped), so the second call injects `a.b` again, and the tree ends with
two `a.b` script tags instead of one. -/
theorem C2_idempotent_counterexample :
    exTwiceAB.map treeScriptSrcs = some ["a.b", "a.b"]
    ∧ exOnceAB.map treeScriptSrcs = some ["a.b"] :=
  ⟨rfl, rfl⟩

end WebPlugin
